import Mathlib

/-!
Shallow embedding of the moving-average crossover strategy (src/main.py).

The price column of the fetched DataFrame is modelled as a `List ℚ` (exact
rationals stand in for the floating-point close prices; precision concerns are
out of scope).  Each derived DataFrame column is modelled as a function from the
row index to its value, together with a list form obtained by mapping that
function over the row range.

Columns, in the order the source computes them:
  * `Short_MA` / `Long_MA` (`calculate_moving_averages`, lines 42-43):
    `data['Close'].rolling(window=w).mean()` — value at row `i` is the mean of
    the `w` closes ending at `i`, and `NaN` (here `none`) while fewer than `w`
    observations are available.  Pandas accepts `window=0` and then yields an
    all-`NaN` column, which the embedding renders as all-`none`.
  * `Signal` (`generate_signals`, line 64):
    `np.where(data['Short_MA'] > data['Long_MA'], 1, 0)` — a `NaN` on either
    side of the comparison makes it `False`, hence `Signal = 0` there.
  * `Position` (`generate_signals`, line 67): `data['Signal'].diff()` — `NaN`
    at row 0, `Signal[i] - Signal[i-1]` afterwards.
The emitted events are the rows where `Position == 1` (Buy) or
`Position == -1` (Sell), read off in row order (`print_signals`, `plot_strategy`).
`main` (lines 189-191) aborts before computing any column when the fetched
frame is empty.
-/

/-- Close prices of the `w`-sized window ending at row `i`:
the last `w` elements of `xs.take (i+1)`. -/
def windowSlice (w i : Nat) (xs : List ℚ) : List ℚ :=
  (xs.take (i + 1)).drop (i + 1 - w)

/-- `Short_MA`/`Long_MA` column as a function of the row index: the value of
`data['Close'].rolling(window=w).mean()` at row `i`.  Defined exactly when the
window is full (`w ≤ i + 1`), nonempty (`1 ≤ w`) and the row exists. -/
def maCol (w : Nat) (xs : List ℚ) (i : Nat) : Option ℚ :=
  if 1 ≤ w ∧ w ≤ i + 1 ∧ i < xs.length then
    some ((windowSlice w i xs).sum / (w : ℚ))
  else none

/-- The rolling-mean column in list form (length = number of rows). -/
def rollingMean (w : Nat) (xs : List ℚ) : List (Option ℚ) :=
  (List.range xs.length).map (maCol w xs)

/-- The comparison `Short_MA > Long_MA` with pandas/NumPy semantics:
a `NaN` (absent) operand makes the comparison `False`. -/
def optGT : Option ℚ → Option ℚ → Bool
  | some a, some b => decide (b < a)
  | _, _ => false

/-- `Signal` column: `np.where(Short_MA > Long_MA, 1, 0)` at row `i`. -/
def sigCol (sw lw : Nat) (xs : List ℚ) (i : Nat) : Int :=
  if optGT (maCol sw xs i) (maCol lw xs i) then 1 else 0

/-- The `Signal` column in list form. -/
def signalList (sw lw : Nat) (xs : List ℚ) : List Int :=
  (List.range xs.length).map (sigCol sw lw xs)

/-- `Position` column: `Signal.diff()` — `NaN` at row 0, else the difference
of consecutive `Signal` values. -/
def posCol (sw lw : Nat) (xs : List ℚ) (i : Nat) : Option Int :=
  if 1 ≤ i then some (sigCol sw lw xs i - sigCol sw lw xs (i - 1)) else none

/-- Event kinds reported by the strategy. -/
inductive Kind : Type
  | buy
  | sell
deriving DecidableEq, Repr

/-- The event (if any) the strategy reports at row `i`:
Buy where `Position == 1`, Sell where `Position == -1`. -/
def eventAt (sw lw : Nat) (xs : List ℚ) (i : Nat) : Option (Nat × Kind) :=
  if posCol sw lw xs i = some 1 then some (i, Kind.buy)
  else if posCol sw lw xs i = some (-1) then some (i, Kind.sell)
  else none

/-- All emitted events, in row order. -/
def strategyEvents (sw lw : Nat) (xs : List ℚ) : List (Nat × Kind) :=
  (List.range xs.length).filterMap (eventAt sw lw xs)

/-- The spec's regime indicator, derived from the code's comparison of the two
averages: `Above` when the short average strictly exceeds the long one,
`NotAbove` on a tie or below, undefined while either average is absent. -/
inductive Regime : Type
  | above
  | notAbove
deriving DecidableEq, Repr

/-- Regime at row `i`. -/
def regimeCol (sw lw : Nat) (xs : List ℚ) (i : Nat) : Option Regime :=
  match maCol sw xs i, maCol lw xs i with
  | some a, some b => some (if b < a then Regime.above else Regime.notAbove)
  | _, _ => none

/-- The regime column in list form. -/
def regimeList (sw lw : Nat) (xs : List ℚ) : List (Option Regime) :=
  (List.range xs.length).map (regimeCol sw lw xs)

/-- 0/1 encoding of a possibly-undefined regime, as the code's `Signal`
column performs it: `Above` is 1, everything else (including undefined) is 0. -/
def regimeTo01 : Option Regime → Int
  | some Regime.above => 1
  | _ => 0

/-- Outcome of `main`'s pipeline: either the empty-data abort
(lines 189-191) or the emitted events. -/
inductive RunResult : Type
  | noData
  | ok (events : List (Nat × Kind))
deriving DecidableEq, Repr

/-- The pipeline as `main` runs it: abort on an empty frame before any
column is computed, otherwise compute averages, signals and events. -/
def runStrategy (sw lw : Nat) (xs : List ℚ) : RunResult :=
  if xs.isEmpty then RunResult.noData
  else RunResult.ok (strategyEvents sw lw xs)

/-- Scenario A price series from the spec's testable properties. -/
def scenarioA : List ℚ := [10, 10, 10, 10, 10, 12, 14, 16, 18, 20]

lemma sigCol_zero_or_one (sw lw : Nat) (xs : List ℚ) (i : Nat) :
    sigCol sw lw xs i = 0 ∨ sigCol sw lw xs i = 1 := by
  unfold sigCol; split <;> simp

lemma sigCol_eq_regimeTo01 (sw lw : Nat) (xs : List ℚ) (i : Nat) :
    sigCol sw lw xs i = regimeTo01 (regimeCol sw lw xs i) := by
  unfold sigCol regimeCol optGT
  rcases maCol sw xs i with _ | a <;> rcases maCol lw xs i with _ | b <;>
    simp [regimeTo01]
  by_cases h : b < a <;> simp [h, regimeTo01]

lemma regimeTo01_eq_one_iff (r : Option Regime) :
    regimeTo01 r = 1 ↔ r = some Regime.above := by
  rcases r with _ | r
  · simp [regimeTo01]
  · cases r <;> simp [regimeTo01]

lemma posCol_zero (sw lw : Nat) (xs : List ℚ) : posCol sw lw xs 0 = none := by
  simp [posCol]

lemma posCol_of_pos (sw lw : Nat) (xs : List ℚ) {i : Nat} (h : 1 ≤ i) :
    posCol sw lw xs i = some (sigCol sw lw xs i - sigCol sw lw xs (i - 1)) := by
  simp [posCol, h]

lemma eventAt_eq_some_iff (sw lw : Nat) (xs : List ℚ) (j i : Nat) (k : Kind) :
    eventAt sw lw xs j = some (i, k) ↔
      j = i ∧ 1 ≤ j ∧
      ((k = Kind.buy ∧ sigCol sw lw xs (j - 1) = 0 ∧ sigCol sw lw xs j = 1) ∨
       (k = Kind.sell ∧ sigCol sw lw xs (j - 1) = 1 ∧ sigCol sw lw xs j = 0)) := by
  rcases Nat.lt_or_ge j 1 with hj | hj
  · have hj0 : j = 0 := by omega
    subst hj0
    simp [eventAt, posCol]
  · rcases sigCol_zero_or_one sw lw xs j with h1 | h1 <;>
    rcases sigCol_zero_or_one sw lw xs (j - 1) with h2 | h2 <;>
      simp [eventAt, posCol_of_pos sw lw xs hj, h1, h2, hj] <;>
      cases k <;> simp [eq_comm]

lemma mem_strategyEvents_iff (sw lw : Nat) (xs : List ℚ) (i : Nat) (k : Kind) :
    (i, k) ∈ strategyEvents sw lw xs ↔
      1 ≤ i ∧ i < xs.length ∧
      ((k = Kind.buy ∧ sigCol sw lw xs (i - 1) = 0 ∧ sigCol sw lw xs i = 1) ∨
       (k = Kind.sell ∧ sigCol sw lw xs (i - 1) = 1 ∧ sigCol sw lw xs i = 0)) := by
  unfold strategyEvents
  rw [List.mem_filterMap]
  constructor
  · rintro ⟨j, hj, hev⟩
    rw [eventAt_eq_some_iff] at hev
    obtain ⟨rfl, h1, h⟩ := hev
    exact ⟨h1, List.mem_range.mp hj, h⟩
  · rintro ⟨h1, h2, h⟩
    exact ⟨i, List.mem_range.mpr h2, (eventAt_eq_some_iff sw lw xs i i k).mpr ⟨rfl, h1, h⟩⟩

lemma maCol_ne_none_iff (w : Nat) (xs : List ℚ) (i : Nat) :
    maCol w xs i ≠ none ↔ (1 ≤ w ∧ w ≤ i + 1 ∧ i < xs.length) := by
  unfold maCol; split <;> simp_all

lemma countP_range_window (w : Nat) (hw : 1 ≤ w) :
    ∀ n, (List.range n).countP (fun i => decide (w ≤ i + 1)) = n + 1 - w := by
  intro n
  induction n with
  | zero => simp; omega
  | succ m ih =>
    rw [List.range_succ, List.countP_append, ih]
    by_cases h : w ≤ m + 1
    · simp [List.countP_cons, h]; omega
    · simp [List.countP_cons, h]; omega

lemma windowSlice_eq_take (w i : Nat) (xs : List ℚ) (h : w ≤ i + 1) :
    windowSlice w i xs = (xs.drop (i + 1 - w)).take w := by
  unfold windowSlice
  rw [List.take_drop]
  have hh : i + 1 - w + w = i + 1 := by omega
  rw [hh]

lemma maCol_replicate_eq (w n : Nat) (c : ℚ) (i : Nat) :
    maCol w (List.replicate n c) i = none ∨ maCol w (List.replicate n c) i = some c := by
  unfold maCol
  split
  · rename_i h
    obtain ⟨hw, hwi, hin⟩ := h
    rw [List.length_replicate] at hin
    right
    have hlen : (windowSlice w i (List.replicate n c)).length = w := by
      unfold windowSlice
      rw [List.length_drop, List.length_take, List.length_replicate]
      omega
    have hmem : ∀ x ∈ windowSlice w i (List.replicate n c), x = c := by
      intro x hx
      have hx1 : x ∈ List.take (i + 1) (List.replicate n c) :=
        List.drop_subset _ _ hx
      exact List.eq_of_mem_replicate (List.take_subset _ _ hx1)
    rw [List.sum_eq_card_nsmul _ c hmem, hlen, nsmul_eq_mul,
      mul_div_cancel_left₀]
    exact Nat.cast_ne_zero.mpr (by omega)
  · left; rfl

lemma sigCol_replicate (sw lw n : Nat) (c : ℚ) (i : Nat) :
    sigCol sw lw (List.replicate n c) i = 0 := by
  unfold sigCol
  rcases maCol_replicate_eq sw n c i with h | h <;>
  rcases maCol_replicate_eq lw n c i with h2 | h2 <;>
    simp [optGT, h, h2]

lemma strategyEvents_nil_of_sig_zero (sw lw : Nat) (xs : List ℚ)
    (h : ∀ i, sigCol sw lw xs i = 0) : strategyEvents sw lw xs = [] := by
  unfold strategyEvents
  rw [List.filterMap_eq_nil_iff]
  intro j _
  have hp : posCol sw lw xs j = none ∨ posCol sw lw xs j = some 0 := by
    unfold posCol; split
    · right; rw [h, h]; rfl
    · left; rfl
  unfold eventAt
  rcases hp with hp | hp <;> simp [hp]

lemma eventAt_none_sig (sw lw : Nat) (xs : List ℚ) (j : Nat) (hj : 1 ≤ j)
    (h : eventAt sw lw xs j = none) :
    sigCol sw lw xs j = sigCol sw lw xs (j - 1) := by
  unfold eventAt at h
  rw [posCol_of_pos sw lw xs hj] at h
  rcases sigCol_zero_or_one sw lw xs j with h1 | h1 <;>
  rcases sigCol_zero_or_one sw lw xs (j - 1) with h2 | h2 <;>
    rw [h1, h2] at h ⊢ <;> simp_all

lemma events_scan_aux (sw lw : Nat) (xs : List ℚ) :
    ∀ (n s : Nat), 1 ≤ s →
      List.Chain' (fun a b : Nat × Kind => a.1 < b.1 ∧ a.2 ≠ b.2)
          ((List.range' s n).filterMap (eventAt sw lw xs)) ∧
      (∀ e ∈ (List.range' s n).filterMap (eventAt sw lw xs), s ≤ e.1) ∧
      (∀ e, ((List.range' s n).filterMap (eventAt sw lw xs)).head? = some e →
          (e.2 = Kind.buy ↔ sigCol sw lw xs (s - 1) = 0)) := by
  intro n
  induction n with
  | zero => intro s hs; simp
  | succ m ih =>
    intro s hs
    rw [List.range'_succ, List.filterMap_cons]
    obtain ⟨ih1, ih2, ih3⟩ := ih (s + 1) (by omega)
    have hs1 : s + 1 - 1 = s := by omega
    rw [hs1] at ih3
    rcases hev : eventAt sw lw xs s with _ | e
    · simp only
      have hsig := eventAt_none_sig sw lw xs s hs hev
      refine ⟨ih1, ?_, ?_⟩
      · intro e he
        have := ih2 e he
        omega
      · intro e he
        rw [ih3 e he, hsig]
    · rcases e with ⟨i, k⟩
      rw [eventAt_eq_some_iff] at hev
      obtain ⟨rfl, -, hcase⟩ := hev
      simp only
      refine ⟨?_, ?_, ?_⟩
      · rw [List.chain'_cons']
        refine ⟨?_, ih1⟩
        intro y hy
        have hymem := List.mem_of_mem_head? hy
        have hybd := ih2 y hymem
        have hykind := ih3 y hy
        refine ⟨by omega, ?_⟩
        rcases hcase with ⟨hk, hsm, hss⟩ | ⟨hk, hsm, hss⟩
        · have hy2 : y.2 ≠ Kind.buy := by
            intro hb
            rw [hykind.mp hb] at hss
            cases hss
          subst hk
          exact fun heq => hy2 heq.symm
        · have hy2 : y.2 = Kind.buy := hykind.mpr hss
          subst hk
          rw [hy2]
          intro heq
          cases heq
      · intro e he
        rcases List.mem_cons.mp he with rfl | hmem
        · simp
        · have := ih2 e hmem
          omega
      · intro e he
        rw [List.head?_cons, Option.some.injEq] at he
        subst he
        rcases hcase with ⟨hk, hsm, hss⟩ | ⟨hk, hsm, hss⟩
        · subst hk
          simp [hsm]
        · subst hk
          simp [hsm]

lemma events_two_rising : strategyEvents 1 2 [1, 10] = [(1, Kind.buy)] := by
  norm_num [strategyEvents, List.filterMap_cons, reduceCtorEq, eventAt, posCol, sigCol,
    maCol, windowSlice, optGT, List.range_succ]
  all_goals simp

lemma events_boundary_three : strategyEvents 1 3 [2, 3, 10] = [(2, Kind.buy)] := by
  norm_num [strategyEvents, List.filterMap_cons, reduceCtorEq, eventAt, posCol, sigCol,
    maCol, windowSlice, optGT, List.range_succ]
  all_goals simp

lemma events_zigzag : strategyEvents 1 2 [1, 10, 2, 20] =
    [(1, Kind.buy), (2, Kind.sell), (3, Kind.buy)] := by
  norm_num [strategyEvents, List.filterMap_cons, reduceCtorEq, eventAt, posCol, sigCol,
    maCol, windowSlice, optGT, List.range_succ]
  all_goals simp

/-- C1, counterexample: on prices `[1, 10]` with windows 1 and 2, a Buy event is
emitted at index 1 although the regime at index 0 is undefined — the code's
`np.where` treats the undefined regime as the 0 state, contradicting the claim
that no event fires when either side of the consecutive pair is undefined. -/
theorem C1_counterexample :
    (1, Kind.buy) ∈ strategyEvents 1 2 [1, 10] ∧ regimeCol 1 2 [1, 10] 0 = none := by
  constructor
  · rw [events_two_rising]
    simp
  · norm_num [regimeCol, maCol, windowSlice]

/-- C1, amended: an event is emitted at index `i` iff `i ≥ 1`, `i < N`, and the
0/1 indicator derived from the regime (`Above` ↦ 1, `NotAbove` and *undefined*
↦ 0) changes between `i-1` and `i`; a Buy on a 0→1 change, a Sell on 1→0.
The undefined regime is treated as the 0 state, not as "no signal". -/
theorem C1_event_iff_indicator_change (sw lw : Nat) (xs : List ℚ) (i : Nat) (k : Kind) :
    (i, k) ∈ strategyEvents sw lw xs ↔
      1 ≤ i ∧ i < xs.length ∧
      ((k = Kind.buy ∧ regimeTo01 (regimeCol sw lw xs (i - 1)) = 0 ∧
          regimeTo01 (regimeCol sw lw xs i) = 1) ∨
       (k = Kind.sell ∧ regimeTo01 (regimeCol sw lw xs (i - 1)) = 1 ∧
          regimeTo01 (regimeCol sw lw xs i) = 0)) := by
  rw [mem_strategyEvents_iff]
  simp only [sigCol_eq_regimeTo01]

/-- C2, counterexample: on prices `[2, 3, 10]` with windows 1 and 3, the regime
is undefined at indices 0 and 1 and first becomes defined (as `Above`) at
index 2 — and a Buy event fires exactly there, so the transition out of
warm-up does emit an event, contradicting the claim. -/
theorem C2_counterexample :
    regimeCol 1 3 [2, 3, 10] 0 = none ∧ regimeCol 1 3 [2, 3, 10] 1 = none ∧
    regimeCol 1 3 [2, 3, 10] 2 = some Regime.above ∧
    (2, Kind.buy) ∈ strategyEvents 1 3 [2, 3, 10] := by
  refine ⟨?_, ?_, ?_, ?_⟩
  · norm_num [regimeCol, maCol, windowSlice]
  · norm_num [regimeCol, maCol, windowSlice]
  · norm_num [regimeCol, maCol, windowSlice]
  · rw [events_boundary_three]
    simp

/-- C2, amended: at a transition out of warm-up (regime undefined at `i-1`,
`1 ≤ i < N`), an event fires iff the regime at `i` is `Above`, and it is then
a Buy; a Sell never fires there, and the first determination is silent only
when it is `NotAbove` (or happens at index 0, where no event can fire). -/
theorem C2_warmup_transition (sw lw : Nat) (xs : List ℚ) (i : Nat)
    (h1 : 1 ≤ i) (h2 : i < xs.length) (hu : regimeCol sw lw xs (i - 1) = none) :
    (((i, Kind.buy) ∈ strategyEvents sw lw xs) ↔
        regimeCol sw lw xs i = some Regime.above) ∧
    (i, Kind.sell) ∉ strategyEvents sw lw xs ∧
    ∀ k : Kind, (0, k) ∉ strategyEvents sw lw xs := by
  have hs0 : sigCol sw lw xs (i - 1) = 0 := by
    rw [sigCol_eq_regimeTo01, hu]; rfl
  refine ⟨?_, ?_, ?_⟩
  · rw [mem_strategyEvents_iff]
    constructor
    · rintro ⟨-, -, h⟩
      rcases h with ⟨-, -, hsig⟩ | ⟨hk, -, -⟩
      · rw [sigCol_eq_regimeTo01, regimeTo01_eq_one_iff] at hsig
        exact hsig
      · cases hk
    · intro hab
      refine ⟨h1, h2, Or.inl ⟨rfl, hs0, ?_⟩⟩
      rw [sigCol_eq_regimeTo01, regimeTo01_eq_one_iff]
      exact hab
  · rw [mem_strategyEvents_iff]
    rintro ⟨-, -, h⟩
    rcases h with ⟨hk, -, -⟩ | ⟨-, hsig, -⟩
    · cases hk
    · rw [hs0] at hsig
      cases hsig
  · intro k hk
    rw [mem_strategyEvents_iff] at hk
    omega

/-- C2, witness: the amended statement applied at prices `[2, 3, 10]`,
windows 1 and 3, index 2. -/
theorem C2_warmup_transition_witness :
    (1 ≤ 2 ∧ 2 < ([2, 3, 10] : List ℚ).length ∧ regimeCol 1 3 [2, 3, 10] 1 = none) ∧
    (((2, Kind.buy) ∈ strategyEvents 1 3 [2, 3, 10]) ↔
        regimeCol 1 3 [2, 3, 10] 2 = some Regime.above) ∧
    (2, Kind.sell) ∉ strategyEvents 1 3 [2, 3, 10] :=
  ⟨⟨by norm_num, by norm_num, by norm_num [regimeCol, maCol, windowSlice]⟩,
    (C2_warmup_transition 1 3 [2, 3, 10] 2 (by norm_num) (by norm_num)
      (by norm_num [regimeCol, maCol, windowSlice])).1,
    (C2_warmup_transition 1 3 [2, 3, 10] 2 (by norm_num) (by norm_num)
      (by norm_num [regimeCol, maCol, windowSlice])).2.1⟩

/-- C3: for `W ≥ 1` the rolling-average output has length `N`, exactly
`N + 1 - W` (truncated, i.e. `max (N - W + 1) 0`) defined entries, entry `i`
is defined iff `i ≥ W - 1` and then equals the arithmetic mean of the closes
at indices `[i-W+1, i]`, and `W > N` yields an entirely undefined sequence. -/
theorem C3_rolling_mean_spec (w : Nat) (xs : List ℚ) (hw : 1 ≤ w) :
    (rollingMean w xs).length = xs.length ∧
    ((rollingMean w xs).filter (fun o => o ≠ none)).length = xs.length + 1 - w ∧
    (∀ i, i < xs.length →
        (rollingMean w xs).getD i none =
          if w ≤ i + 1 then some (((xs.drop (i + 1 - w)).take w).sum / (w : ℚ))
          else none) ∧
    (xs.length < w → ∀ o ∈ rollingMean w xs, o = none) := by
  refine ⟨by simp [rollingMean], ?_, ?_, ?_⟩
  · rw [rollingMean, ← List.countP_eq_length_filter, List.countP_map]
    have hcong : ∀ x ∈ List.range xs.length,
        ((fun o => decide (o ≠ none)) ∘ maCol w xs) x ↔ decide (w ≤ x + 1) := by
      intro x hx
      have hxlt := List.mem_range.mp hx
      simp only [Function.comp_apply, decide_eq_true_eq]
      rw [maCol_ne_none_iff]
      constructor
      · rintro ⟨-, h, -⟩; exact h
      · intro h; exact ⟨hw, h, hxlt⟩
    rw [List.countP_congr hcong, countP_range_window w hw]
  · intro i hi
    rw [rollingMean, List.getD_eq_getElem?_getD, List.getElem?_map, List.getElem?_range hi]
    simp only [Option.map_some', Option.getD_some]
    by_cases h : w ≤ i + 1
    · rw [if_pos h]
      unfold maCol
      rw [if_pos ⟨hw, h, hi⟩, windowSlice_eq_take w i xs h]
    · rw [if_neg h]
      unfold maCol
      rw [if_neg (fun hc => h hc.2.1)]
  · intro hlt o ho
    rw [rollingMean, List.mem_map] at ho
    obtain ⟨j, hj, rfl⟩ := ho
    have hjlt := List.mem_range.mp hj
    unfold maCol
    rw [if_neg]
    rintro ⟨-, hc2, hc3⟩
    omega

/-- C3, witness: the specification applied at `W = 2` and prices `[1, 2, 3]`. -/
theorem C3_rolling_mean_spec_witness :
    1 ≤ 2 ∧ (rollingMean 2 [1, 2, 3]).length = ([1, 2, 3] : List ℚ).length ∧
      ((rollingMean 2 [1, 2, 3]).filter (fun o => o ≠ none)).length =
        ([1, 2, 3] : List ℚ).length + 1 - 2 :=
  ⟨by norm_num, (C3_rolling_mean_spec 2 [1, 2, 3] (by norm_num)).1,
    (C3_rolling_mean_spec 2 [1, 2, 3] (by norm_num)).2.1⟩

/-- C4: where both averages are defined, the regime is `Above` exactly when the
short average strictly exceeds the long one and `NotAbove` exactly when it is
less than or equal (a tie is `NotAbove`); consequently a constant price series
of any length at least the long window produces zero events. -/
theorem C4_regime_and_constant (sw lw : Nat) (xs : List ℚ) (i : Nat) (a b : ℚ)
    (ha : maCol sw xs i = some a) (hb : maCol lw xs i = some b) :
    ((regimeCol sw lw xs i = some Regime.above ↔ b < a) ∧
     (regimeCol sw lw xs i = some Regime.notAbove ↔ a ≤ b)) ∧
    ∀ (c : ℚ) (n : Nat), lw ≤ n → strategyEvents sw lw (List.replicate n c) = [] := by
  constructor
  · unfold regimeCol
    rw [ha, hb]
    by_cases h : b < a
    · simp only [if_pos h]
      constructor
      · simp [h]
      · simp [not_le.mpr h]
    · simp only [if_neg h]
      constructor
      · simp [h]
      · simp [not_lt.mp h]
  · intro c n _
    exact strategyEvents_nil_of_sig_zero sw lw _ (fun j => sigCol_replicate sw lw n c j)

/-- C4, witness: the classification at prices `[1, 2]`, windows 1 and 2,
index 1, and the constant series of length 3 for the long window 2. -/
theorem C4_regime_and_constant_witness :
    (maCol 1 [1, 2] 1 = some 2 ∧ maCol 2 [1, 2] 1 = some (3 / 2)) ∧
    (regimeCol 1 2 [1, 2] 1 = some Regime.above ↔ (3 / 2 : ℚ) < 2) ∧
    strategyEvents 1 2 (List.replicate 3 (7 : ℚ)) = [] :=
  ⟨⟨by norm_num [maCol, windowSlice], by norm_num [maCol, windowSlice]⟩,
    (C4_regime_and_constant 1 2 [1, 2] 1 2 (3 / 2) (by norm_num [maCol, windowSlice])
      (by norm_num [maCol, windowSlice])).1.1,
    (C4_regime_and_constant 1 2 [1, 2] 1 2 (3 / 2) (by norm_num [maCol, windowSlice])
      (by norm_num [maCol, windowSlice])).2 7 3 (by norm_num)⟩

/-- C5: every emitted event sits at an index `1 ≤ i < N` (so the event list is
a timestamp-ordered subsequence of the input), adjacent events have strictly
increasing indices, and adjacent events never share a kind: Buy and Sell
strictly alternate, only the first event being of unconstrained kind. -/
theorem C5_events_ordered_alternating (sw lw : Nat) (xs : List ℚ) :
    (∀ e ∈ strategyEvents sw lw xs, 1 ≤ e.1 ∧ e.1 < xs.length) ∧
    List.Chain' (fun a b : Nat × Kind => a.1 < b.1 ∧ a.2 ≠ b.2)
      (strategyEvents sw lw xs) := by
  constructor
  · rintro ⟨i, k⟩ he
    have h := (mem_strategyEvents_iff sw lw xs i k).mp he
    exact ⟨h.1, h.2.1⟩
  · unfold strategyEvents
    rcases hxl : xs.length with _ | m
    · simp
    · rw [List.range_eq_range', List.range'_succ, List.filterMap_cons]
      have h0 : eventAt sw lw xs 0 = none := by
        unfold eventAt
        rw [posCol_zero]
        simp
      rw [h0]
      exact (events_scan_aux sw lw xs m (0 + 1) (by omega)).1

/-- C5, witness: on prices `[1, 10, 2, 20]` with windows 1 and 2 the event
list is `[(1, Buy), (2, Sell), (3, Buy)]`: indices increase and kinds
alternate. -/
theorem C5_events_ordered_alternating_witness :
    ((1, Kind.buy) ∈ strategyEvents 1 2 [1, 10, 2, 20] ∧
      1 ≤ (1, Kind.buy).1 ∧ (1, Kind.buy).1 < ([1, 10, 2, 20] : List ℚ).length) ∧
    List.Chain' (fun a b : Nat × Kind => a.1 < b.1 ∧ a.2 ≠ b.2)
      (strategyEvents 1 2 [1, 10, 2, 20]) :=
  ⟨⟨by rw [events_zigzag]; simp,
    (C5_events_ordered_alternating 1 2 [1, 10, 2, 20]).1 (1, Kind.buy)
      (by rw [events_zigzag]; simp)⟩,
    (C5_events_ordered_alternating 1 2 [1, 10, 2, 20]).2⟩

/-- C6, counterexample: with a zero short window the pipeline does not fail at
all — there is no `InvalidConfig` (or any) window validation: it runs to
completion with an entirely undefined rolling average and an empty event
list. -/
theorem C6_counterexample :
    runStrategy 0 50 [1, 2, 3] = RunResult.ok [] ∧
    rollingMean 0 [1, 2, 3] = [none, none, none] := by
  constructor
  · norm_num [runStrategy, strategyEvents, List.filterMap_cons, reduceCtorEq, eventAt,
      posCol, sigCol, maCol, optGT, List.range_succ]
    all_goals simp
  · norm_num [rollingMean, maCol, List.range_succ]

/-- C6, amended: the code performs no window validation: a window smaller
than 1 (i.e. `W = 0`) on either side makes the corresponding average entirely
undefined, and the pipeline proceeds normally and returns an empty event list
instead of failing with a distinguishable `InvalidConfig` error. -/
theorem C6_no_window_validation (sw lw : Nat) (xs : List ℚ)
    (hne : xs ≠ []) (h0 : sw = 0 ∨ lw = 0) :
    runStrategy sw lw xs = RunResult.ok [] := by
  have hz : ∀ y : Option ℚ, optGT none y = false := by
    intro y; rcases y with _ | b <;> rfl
  have hz2 : ∀ y : Option ℚ, optGT y none = false := by
    intro y; rcases y with _ | b <;> rfl
  have hnone : ∀ (xs2 : List ℚ) (i : Nat), maCol 0 xs2 i = none := by
    intro xs2 i
    unfold maCol
    rw [if_neg]
    rintro ⟨h, -⟩
    omega
  have hsig : ∀ i, sigCol sw lw xs i = 0 := by
    intro i
    unfold sigCol
    rcases h0 with rfl | rfl
    · rw [hnone, hz]
      rfl
    · rw [hnone, hz2]
      rfl
  unfold runStrategy
  rw [if_neg (by simpa using hne), strategyEvents_nil_of_sig_zero sw lw xs hsig]

/-- C6, witness: the amended statement applied with a zero short window on the
two-point series `[1, 2]`. -/
theorem C6_no_window_validation_witness :
    (([1, 2] : List ℚ) ≠ [] ∧ (0 = 0 ∨ 2 = 0)) ∧
    runStrategy 0 2 [1, 2] = RunResult.ok [] :=
  ⟨⟨by simp, Or.inl rfl⟩, C6_no_window_validation 0 2 [1, 2] (by simp) (Or.inl rfl)⟩

/-- C7: on an empty price series the pipeline aborts with the distinguishable
no-data outcome, for every window configuration — so the emptiness check
dominates everything downstream and no averaging, signal or event stage
contributes to the result. -/
theorem C7_empty_input_aborts (sw lw : Nat) :
    runStrategy sw lw [] = RunResult.noData := rfl

/-- C9: on Scenario A (prices `[10,10,10,10,10,12,14,16,18,20]`, short window
2, long window 4) the regime is undefined at indices 0-2 and first defined at
index 3; the only emitted event is a Buy at index 5, the first index where the
short average (11) strictly exceeds the long average (21/2), index 4 still
being a tie (10 vs 10). -/
theorem C9_scenarioA_first_event :
    regimeList 2 4 scenarioA =
      [none, none, none, some Regime.notAbove, some Regime.notAbove,
        some Regime.above, some Regime.above, some Regime.above,
        some Regime.above, some Regime.above] ∧
    strategyEvents 2 4 scenarioA = [(5, Kind.buy)] ∧
    maCol 2 scenarioA 5 = some 11 ∧ maCol 4 scenarioA 5 = some (21 / 2) ∧
    maCol 2 scenarioA 4 = some 10 ∧ maCol 4 scenarioA 4 = some 10 := by
  refine ⟨?_, ?_, ?_, ?_, ?_, ?_⟩
  · norm_num [regimeList, regimeCol, scenarioA, maCol, windowSlice, List.range_succ]
  · norm_num [scenarioA, strategyEvents, List.filterMap_cons, reduceCtorEq, eventAt,
      posCol, sigCol, maCol, windowSlice, optGT, List.range_succ]
    all_goals simp
  · norm_num [scenarioA, maCol, windowSlice]
  · norm_num [scenarioA, maCol, windowSlice]
  · norm_num [scenarioA, maCol, windowSlice]
  · norm_num [scenarioA, maCol, windowSlice]

/-- C10: the `Signal` indicator is 0 or 1 at every index — 0 in particular
wherever either moving average is undefined — and the `Position` value
(`Signal.diff()`) is undefined exactly at index 0 and otherwise one of
-1, 0, 1. -/
theorem C10_signal_binary_position_unit (sw lw : Nat) (xs : List ℚ) (i : Nat) :
    (sigCol sw lw xs i = 0 ∨ sigCol sw lw xs i = 1) ∧
    ((maCol sw xs i = none ∨ maCol lw xs i = none) → sigCol sw lw xs i = 0) ∧
    posCol sw lw xs 0 = none ∧
    (1 ≤ i →
      posCol sw lw xs i = some (-1) ∨ posCol sw lw xs i = some 0 ∨
        posCol sw lw xs i = some 1) := by
  refine ⟨sigCol_zero_or_one sw lw xs i, ?_, posCol_zero sw lw xs, ?_⟩
  · intro h
    unfold sigCol
    rcases h with h | h <;> rw [h]
    · rcases hm : maCol lw xs i with _ | b <;> rfl
    · rcases hm : maCol sw xs i with _ | a <;> rfl
  · intro h
    rw [posCol_of_pos sw lw xs h]
    rcases sigCol_zero_or_one sw lw xs i with h1 | h1 <;>
    rcases sigCol_zero_or_one sw lw xs (i - 1) with h2 | h2 <;>
      rw [h1, h2] <;> norm_num

/-- C10, witness: the statement applied at windows 1 and 2 on prices `[1, 2]`,
at the warm-up index 0 and at index 1. -/
theorem C10_signal_binary_position_unit_witness :
    maCol 2 [1, 2] 0 = none ∧ sigCol 1 2 [1, 2] 0 = 0 ∧
    (posCol 1 2 [1, 2] 1 = some (-1) ∨ posCol 1 2 [1, 2] 1 = some 0 ∨
      posCol 1 2 [1, 2] 1 = some 1) :=
  ⟨by norm_num [maCol],
    (C10_signal_binary_position_unit 1 2 [1, 2] 0).2.1
      (Or.inr (by norm_num [maCol])),
    (C10_signal_binary_position_unit 1 2 [1, 2] 1).2.2.2 (by norm_num)⟩
